import Mathlib

/-!
Shallow embedding of the `csc` Python declaration DSL
(`src/sdk/python/csc/src/csc/{app,registry,resources}.py`).

Python values that flow through the DSL (resource items, log fields,
free-form configuration) are modelled by the inductive `Val`; Python
`dict`s are modelled as association lists with insertion-order
`__setitem__` / `get` / `update` / `del` semantics.  Callables are
identified by a `Nat` identity token; the attribute `_csc_metadata`
stashed on a callable is modelled by a map from callable identity to an
optional metadata record carried in the program state `PState` next to
the global `Registry`.
-/

/-- A Python value: `None`, booleans, integers, strings, string-keyed
dicts, and objects with a string-keyed attribute table. -/
inductive Val where
  | vnone : Val
  | vbool : Bool → Val
  | vint : Int → Val
  | vstr : String → Val
  | vdict : List (String × Val) → Val
  | vobj : List (String × Val) → Val

mutual

/-- Structural equality on `Val` is decidable (hand-rolled because the
type nests under `List`). -/
def Val.decEq : (a b : Val) → Decidable (a = b)
  | .vnone, .vnone => isTrue rfl
  | .vnone, .vbool _ => isFalse (fun h => Val.noConfusion h)
  | .vnone, .vint _ => isFalse (fun h => Val.noConfusion h)
  | .vnone, .vstr _ => isFalse (fun h => Val.noConfusion h)
  | .vnone, .vdict _ => isFalse (fun h => Val.noConfusion h)
  | .vnone, .vobj _ => isFalse (fun h => Val.noConfusion h)
  | .vbool _, .vnone => isFalse (fun h => Val.noConfusion h)
  | .vbool x, .vbool y =>
    if h : x = y then isTrue (by rw [h]) else isFalse (fun he => h (Val.vbool.inj he))
  | .vbool _, .vint _ => isFalse (fun h => Val.noConfusion h)
  | .vbool _, .vstr _ => isFalse (fun h => Val.noConfusion h)
  | .vbool _, .vdict _ => isFalse (fun h => Val.noConfusion h)
  | .vbool _, .vobj _ => isFalse (fun h => Val.noConfusion h)
  | .vint _, .vnone => isFalse (fun h => Val.noConfusion h)
  | .vint _, .vbool _ => isFalse (fun h => Val.noConfusion h)
  | .vint x, .vint y =>
    if h : x = y then isTrue (by rw [h]) else isFalse (fun he => h (Val.vint.inj he))
  | .vint _, .vstr _ => isFalse (fun h => Val.noConfusion h)
  | .vint _, .vdict _ => isFalse (fun h => Val.noConfusion h)
  | .vint _, .vobj _ => isFalse (fun h => Val.noConfusion h)
  | .vstr _, .vnone => isFalse (fun h => Val.noConfusion h)
  | .vstr _, .vbool _ => isFalse (fun h => Val.noConfusion h)
  | .vstr _, .vint _ => isFalse (fun h => Val.noConfusion h)
  | .vstr x, .vstr y =>
    if h : x = y then isTrue (by rw [h]) else isFalse (fun he => h (Val.vstr.inj he))
  | .vstr _, .vdict _ => isFalse (fun h => Val.noConfusion h)
  | .vstr _, .vobj _ => isFalse (fun h => Val.noConfusion h)
  | .vdict _, .vnone => isFalse (fun h => Val.noConfusion h)
  | .vdict _, .vbool _ => isFalse (fun h => Val.noConfusion h)
  | .vdict _, .vint _ => isFalse (fun h => Val.noConfusion h)
  | .vdict _, .vstr _ => isFalse (fun h => Val.noConfusion h)
  | .vdict x, .vdict y =>
    match Val.fieldsDecEq x y with
    | isTrue h => isTrue (by rw [h])
    | isFalse h => isFalse (fun he => h (Val.vdict.inj he))
  | .vdict _, .vobj _ => isFalse (fun h => Val.noConfusion h)
  | .vobj _, .vnone => isFalse (fun h => Val.noConfusion h)
  | .vobj _, .vbool _ => isFalse (fun h => Val.noConfusion h)
  | .vobj _, .vint _ => isFalse (fun h => Val.noConfusion h)
  | .vobj _, .vstr _ => isFalse (fun h => Val.noConfusion h)
  | .vobj _, .vdict _ => isFalse (fun h => Val.noConfusion h)
  | .vobj x, .vobj y =>
    match Val.fieldsDecEq x y with
    | isTrue h => isTrue (by rw [h])
    | isFalse h => isFalse (fun he => h (Val.vobj.inj he))

/-- Componentwise decidable equality for string-keyed field lists. -/
def Val.fieldsDecEq : (a b : List (String × Val)) → Decidable (a = b)
  | [], [] => isTrue rfl
  | [], _ :: _ => isFalse (fun h => List.noConfusion h)
  | _ :: _, [] => isFalse (fun h => List.noConfusion h)
  | (k, v) :: r, (k2, v2) :: r2 =>
    if hk : k = k2 then
      match Val.decEq v v2, Val.fieldsDecEq r r2 with
      | isTrue hv, isTrue hr => isTrue (by rw [hk, hv, hr])
      | isFalse hv, _ =>
        isFalse (fun h => by
          injection h with h1 h2
          exact hv (congrArg Prod.snd h1))
      | _, isFalse hr =>
        isFalse (fun h => by
          injection h with h1 h2
          exact hr h2)
    else
      isFalse (fun h => by
        injection h with h1 h2
        exact hk (congrArg Prod.fst h1))

end

instance : DecidableEq Val := Val.decEq

/-- Python `d.get(k)`: value at the first matching key, else absent. -/
def dictGet {κ α : Type} [DecidableEq κ] (d : List (κ × α)) (k : κ) : Option α :=
  match d with
  | [] => none
  | (k0, v0) :: rest => if k0 = k then some v0 else dictGet rest k

/-- Python `d[k] = v`: replace the value at an existing key in place,
else append a new entry (insertion-order semantics). -/
def dictSet {κ α : Type} [DecidableEq κ] (d : List (κ × α)) (k : κ) (v : α) : List (κ × α) :=
  match d with
  | [] => [(k, v)]
  | (k0, v0) :: rest => if k0 = k then (k, v) :: rest else (k0, v0) :: dictSet rest k v

/-- Python `d.update(d2)`: successive `__setitem__` for each entry of `d2`. -/
def dictUpdate {κ α : Type} [DecidableEq κ] (d d2 : List (κ × α)) : List (κ × α) :=
  d2.foldl (fun acc p => dictSet acc p.1 p.2) d

/-- Python `del d[k]`: drop the entry with key `k` (a genuine dict holds
each key at most once, so dropping every occurrence coincides with it). -/
def dictDel {κ α : Type} [DecidableEq κ] (d : List (κ × α)) (k : κ) : List (κ × α) :=
  d.filter (fun p => p.1 ≠ k)

/-- The keys of `d` are pairwise distinct — true of every real Python dict. -/
def dictNodupKeys {κ α : Type} (d : List (κ × α)) : Prop :=
  (d.map Prod.fst).Nodup

instance {κ α : Type} [DecidableEq κ] (d : List (κ × α)) : Decidable (dictNodupKeys d) := by
  unfold dictNodupKeys; infer_instance

/-- Number of entries of `d` stored under key `k`. -/
def dictCountKey {κ α : Type} [DecidableEq κ] (d : List (κ × α)) (k : κ) : Nat :=
  (d.filter (fun p => p.1 = k)).length

/-- Python `getattr(item, attr, None)`: attribute lookup on an object,
default `None`; scalar values carry no data attributes. -/
def pyGetattr (item : Val) (attr : String) : Val :=
  match item with
  | .vobj attrs => (dictGet attrs attr).getD .vnone
  | _ => .vnone

/-- The authorization descriptor built by the `auth` decorator
(`app.py`, `auth_info`). -/
structure AuthInfo where
  resource : Option Val
  cognito : Option Bool
  scopes : List String
  deriving DecidableEq

/-- The `_csc_metadata` dict stashed on a callable: the keys `path`,
`methods`, `public` (written by `route`) and `auth` (written by `auth`),
each absent until first written. -/
structure Metadata where
  path : Option String
  methods : Option (List String)
  public : Option Bool
  auth : Option AuthInfo
  deriving DecidableEq

/-- `_get_or_create_metadata` (`app.py`): the existing metadata dict, or
a fresh empty one. -/
def getOrCreateMetadata (m : Option Metadata) : Metadata :=
  m.getD ⟨none, none, none, none⟩

/-- One entry of `global_registry.routes` (`app.py`, `register_route`
argument). -/
structure RouteRec where
  handler : Nat
  path : String
  methods : List String
  public : Bool
  auth : Option AuthInfo
  deriving DecidableEq

/-- The record built by `App.__init__` (`app.py`). -/
structure AppRec where
  name : String
  stage : String
  region : String
  config : List (String × Val)
  deriving DecidableEq

/-- The record built by `Table.__init__` (`resources.py`); `data` models
the local item store `_data`. -/
structure TableRec where
  name : String
  partition_key : String
  sort_key : Option String
  encryption : Bool
  backups : Bool
  ttl : Option String
  extra_config : List (String × Val)
  data : List (Val × Val)
  deriving DecidableEq

/-- The record built by `LogStream.__init__` (`resources.py`); `logs`
models the local entry sequence `_logs`. -/
structure LogStreamRec where
  name : String
  retention : String
  encryption : Bool
  extra_config : List (String × Val)
  logs : List (List (String × Val))
  deriving DecidableEq

/-- The record built by `Cognito.__init__` (`resources.py`). -/
structure CognitoRec where
  name : String
  mfa : Bool
  password_policy : String
  token_ttl : String
  extra_config : List (String × Val)
  deriving DecidableEq

/-- A registered resource: the three `Resource` subclasses of
`resources.py`. -/
inductive ResourceRec where
  | table : TableRec → ResourceRec
  | stream : LogStreamRec → ResourceRec
  | cognito : CognitoRec → ResourceRec
  deriving DecidableEq

/-- `self.name`, shared by every `Resource` subclass. -/
def ResourceRec.name : ResourceRec → String
  | .table t => t.name
  | .stream l => l.name
  | .cognito c => c.name

/-- The `Registry` of `registry.py`: one optional `app`, a name-keyed
resource dict, the ordered `routes` and `middlewares` sequences. -/
structure Registry where
  app : Option AppRec
  resources : List (String × ResourceRec)
  routes : List RouteRec
  middlewares : List Nat
  deriving DecidableEq

/-- `Registry.__init__` / the state `Registry.clear` resets to. -/
def Registry.empty : Registry :=
  ⟨none, [], [], []⟩

/-- `Registry.clear` (`registry.py`). -/
def Registry.clear (_r : Registry) : Registry :=
  Registry.empty

/-- `Registry.register_app`. -/
def Registry.register_app (r : Registry) (a : AppRec) : Registry :=
  { r with app := some a }

/-- `Registry.register_resource`. -/
def Registry.register_resource (r : Registry) (name : String) (res : ResourceRec) : Registry :=
  { r with resources := dictSet r.resources name res }

/-- `Registry.register_route`. -/
def Registry.register_route (r : Registry) (ri : RouteRec) : Registry :=
  { r with routes := r.routes ++ [ri] }

/-- `Registry.register_middleware`. -/
def Registry.register_middleware (r : Registry) (f : Nat) : Registry :=
  { r with middlewares := r.middlewares ++ [f] }

/-- Program state: the global registry plus the `_csc_metadata`
attribute each callable carries (`none` when the attribute is absent). -/
structure PState where
  reg : Registry
  meta : Nat → Option Metadata

/-- The state at interpreter start: fresh registry, no callable carries
metadata. -/
def initState : PState :=
  ⟨Registry.empty, fun _ => none⟩

/-- `global_registry.clear()` as a state transformer: callable-attached
metadata is untouched. -/
def resetState (s : PState) : PState :=
  { s with reg := s.reg.clear }

/-- `App.__init__` (`app.py`): build the record and register it. -/
def declareApp (name stage region : String) (kwargs : List (String × Val)) (s : PState) : PState :=
  { s with reg := s.reg.register_app ⟨name, stage, region, kwargs⟩ }

/-- `Resource.__init__` (`resources.py`): register the resource under
its `name`. -/
def declareResource (r : ResourceRec) (s : PState) : PState :=
  { s with reg := s.reg.register_resource r.name r }

/-- The methods computation at the top of `route(...)` (`app.py`):
`methods` wins when given; else a truthy `method` yields a singleton;
else the default `["GET"]`. -/
def routeMethods (method : Option String) (methods : Option (List String)) : List String :=
  match methods with
  | some ms => ms
  | none =>
    match method with
    | some m => if m = "" then ["GET"] else [m]
    | none => ["GET"]

/-- `next((r for r in global_registry.routes if r["handler"] == func), None)`. -/
def findRouteByHandler (f : Nat) : List RouteRec → Option RouteRec
  | [] => none
  | r :: rs => if r.handler = f then some r else findRouteByHandler f rs

/-- Mutating the first route record whose handler is `f` in place. -/
def updateFirstRoute (f : Nat) (g : RouteRec → RouteRec) : List RouteRec → List RouteRec
  | [] => []
  | r :: rs => if r.handler = f then g r :: rs else r :: updateFirstRoute f g rs

/-- The `route(path, method, methods, public)` decorator applied to the
callable `f` (`app.py`). -/
def routeDecor (path : String) (method : Option String) (methods : Option (List String))
    (pub : Bool) (f : Nat) (s : PState) : PState :=
  let ms := routeMethods method methods
  let md0 := getOrCreateMetadata (s.meta f)
  let md : Metadata := { md0 with path := some path, methods := some ms, public := some pub }
  let meta' := fun g => if g = f then some md else s.meta g
  match findRouteByHandler f s.reg.routes with
  | some _ =>
    { reg := { s.reg with
        routes := updateFirstRoute f
          (fun r => { r with path := path, methods := ms, public := pub }) s.reg.routes },
      meta := meta' }
  | none =>
    { reg := s.reg.register_route ⟨f, path, ms, pub, md.auth⟩, meta := meta' }

/-- The `auth(resource, cognito, scopes)` decorator applied to the
callable `f` (`app.py`). -/
def authDecor (resource : Option Val) (cognito : Option Bool) (scopes : Option (List String))
    (f : Nat) (s : PState) : PState :=
  let scp := scopes.getD []
  let md0 := getOrCreateMetadata (s.meta f)
  let ai : AuthInfo := ⟨resource, cognito, scp⟩
  let md : Metadata := { md0 with auth := some ai }
  let meta' := fun g => if g = f then some md else s.meta g
  match findRouteByHandler f s.reg.routes with
  | some _ =>
    { reg := { s.reg with
        routes := updateFirstRoute f (fun r => { r with auth := some ai }) s.reg.routes },
      meta := meta' }
  | none =>
    { reg := s.reg, meta := meta' }

/-- The `middleware` decorator (`app.py`). -/
def middlewareDecor (f : Nat) (s : PState) : PState :=
  { s with reg := s.reg.register_middleware f }

/-- `Table.get` (`resources.py`): `self._data.get(id)`. -/
def TableRec.get (t : TableRec) (id : Val) : Option Val :=
  dictGet t.data id

/-- `Table.put` (`resources.py`): extract the partition-key value from a
dict item via `.get`, otherwise via `getattr`; store only when the
extracted value is not `None`. -/
def TableRec.put (t : TableRec) (item : Val) : TableRec :=
  let idVal :=
    match item with
    | .vdict fields => (dictGet fields t.partition_key).getD .vnone
    | _ => pyGetattr item t.partition_key
  match idVal with
  | .vnone => t
  | v => { t with data := dictSet t.data v item }

/-- `Table.scan` (`resources.py`): all stored items in order. -/
def TableRec.scan (t : TableRec) : List Val :=
  t.data.map Prod.snd

/-- `Table.update` (`resources.py`): merge dict-into-dict in place, else
replace; no-op when the key is absent. -/
def TableRec.update (t : TableRec) (id : Val) (d : Val) : TableRec :=
  match dictGet t.data id with
  | none => t
  | some old =>
    match old, d with
    | .vdict oldFields, .vdict newFields =>
      { t with data := dictSet t.data id (.vdict (dictUpdate oldFields newFields)) }
    | _, _ => { t with data := dictSet t.data id d }

/-- `Table.delete` (`resources.py`): drop the entry when present. -/
def TableRec.delete (t : TableRec) (id : Val) : TableRec :=
  if (dictGet t.data id).isSome then { t with data := dictDel t.data id } else t

/-- The dict literal `{"level": level, "message": message, **kwargs}`. -/
def mkLogEntry (level message : String) (kwargs : List (String × Val)) : List (String × Val) :=
  dictUpdate [("level", .vstr level), ("message", .vstr message)] kwargs

/-- `LogStream.info` (`resources.py`). -/
def LogStreamRec.info (l : LogStreamRec) (message : String) (kwargs : List (String × Val)) :
    LogStreamRec :=
  { l with logs := l.logs ++ [mkLogEntry "INFO" message kwargs] }

/-- `LogStream.audit` (`resources.py`). -/
def LogStreamRec.audit (l : LogStreamRec) (message : String) (kwargs : List (String × Val)) :
    LogStreamRec :=
  { l with logs := l.logs ++ [mkLogEntry "AUDIT" message kwargs] }

/-! ### Association-list (Python dict) lemmas -/

theorem dictGet_dictSet_self {κ α : Type} [DecidableEq κ] (d : List (κ × α)) (k : κ) (v : α) :
    dictGet (dictSet d k v) k = some v := by
  induction d with
  | nil => simp [dictGet, dictSet]
  | cons p rest ih =>
    obtain ⟨k0, v0⟩ := p
    by_cases h : k0 = k <;> simp [dictGet, dictSet, h, ih]

theorem dictGet_dictSet_ne {κ α : Type} [DecidableEq κ] (d : List (κ × α)) (k k2 : κ) (v : α)
    (hne : k2 ≠ k) : dictGet (dictSet d k v) k2 = dictGet d k2 := by
  have hne2 : ¬ (k = k2) := fun he => hne he.symm
  induction d with
  | nil => simp [dictGet, dictSet, hne2]
  | cons p rest ih =>
    obtain ⟨k0, v0⟩ := p
    by_cases h : k0 = k
    · subst h
      simp [dictGet, dictSet, hne2]
    · simp [dictGet, dictSet, h, ih]

theorem dictGet_eq_none_of_not_mem_keys {κ α : Type} [DecidableEq κ] (d : List (κ × α)) (k : κ)
    (h : k ∉ d.map Prod.fst) : dictGet d k = none := by
  induction d with
  | nil => simp [dictGet]
  | cons p rest ih =>
    obtain ⟨k0, v0⟩ := p
    simp only [List.map_cons, List.mem_cons, not_or] at h
    have hne : ¬ (k0 = k) := fun he => h.1 he.symm
    simp [dictGet, hne, ih h.2]

theorem dictGet_dictUpdate_of_none {κ α : Type} [DecidableEq κ] (d d2 : List (κ × α)) (k : κ)
    (h : dictGet d2 k = none) : dictGet (dictUpdate d d2) k = dictGet d k := by
  induction d2 generalizing d with
  | nil => simp [dictUpdate]
  | cons p rest ih =>
    obtain ⟨k2, v2⟩ := p
    simp only [dictGet] at h
    by_cases hk : k2 = k
    · rw [if_pos hk] at h
      exact absurd h (by simp)
    · rw [if_neg hk] at h
      show dictGet (dictUpdate (dictSet d k2 v2) rest) k = dictGet d k
      rw [ih (dictSet d k2 v2) h, dictGet_dictSet_ne _ _ _ _ (fun he => hk he.symm)]

theorem dictGet_dictUpdate_of_some {κ α : Type} [DecidableEq κ] (d d2 : List (κ × α)) (k : κ)
    (v : α) (hnd : dictNodupKeys d2) (h : dictGet d2 k = some v) :
    dictGet (dictUpdate d d2) k = some v := by
  induction d2 generalizing d with
  | nil => simp [dictGet] at h
  | cons p rest ih =>
    obtain ⟨k2, v2⟩ := p
    simp only [dictNodupKeys, List.map_cons, List.nodup_cons] at hnd
    simp only [dictGet] at h
    by_cases hk : k2 = k
    · subst hk
      rw [if_pos rfl] at h
      have hv : v2 = v := by simpa using h
      subst hv
      show dictGet (dictUpdate (dictSet d k2 v2) rest) k2 = some v2
      rw [dictGet_dictUpdate_of_none _ _ _
            (dictGet_eq_none_of_not_mem_keys _ _ hnd.1),
          dictGet_dictSet_self]
    · rw [if_neg hk] at h
      exact ih (dictSet d k2 v2) hnd.2 h

theorem dictGet_eq_of_mem {κ α : Type} [DecidableEq κ] (d : List (κ × α)) (k : κ) (v : α)
    (hnd : dictNodupKeys d) (hm : (k, v) ∈ d) : dictGet d k = some v := by
  induction d with
  | nil => simp at hm
  | cons p rest ih =>
    obtain ⟨k0, v0⟩ := p
    simp only [dictNodupKeys, List.map_cons, List.nodup_cons] at hnd
    rcases List.mem_cons.mp hm with he | hm2
    · injection he with h1 h2
      subst h1
      subst h2
      simp [dictGet]
    · have hk : ¬ (k0 = k) := by
        intro he
        subst he
        exact hnd.1 (List.mem_map.mpr ⟨(k0, v), hm2, rfl⟩)
      simp [dictGet, hk, ih hnd.2 hm2]

theorem dictGet_dictDel_self {κ α : Type} [DecidableEq κ] (d : List (κ × α)) (k : κ) :
    dictGet (dictDel d k) k = none := by
  induction d with
  | nil => simp [dictDel, dictGet]
  | cons p rest ih =>
    obtain ⟨k0, v0⟩ := p
    by_cases h : k0 = k
    · simpa [dictDel, h] using ih
    · simpa [dictDel, dictGet, h, List.filter_cons] using ih

theorem mem_keys_dictSet {κ α : Type} [DecidableEq κ] (d : List (κ × α)) (k x : κ) (v : α) :
    x ∈ (dictSet d k v).map Prod.fst ↔ x ∈ d.map Prod.fst ∨ x = k := by
  induction d with
  | nil => simp [dictSet]
  | cons p rest ih =>
    obtain ⟨k0, v0⟩ := p
    by_cases h : k0 = k
    · subst h
      simp [dictSet]
      tauto
    · simp [dictSet, h, ih]
      tauto

theorem dictNodupKeys_dictSet {κ α : Type} [DecidableEq κ] (d : List (κ × α)) (k : κ) (v : α)
    (h : dictNodupKeys d) : dictNodupKeys (dictSet d k v) := by
  induction d with
  | nil => simp [dictSet, dictNodupKeys]
  | cons p rest ih =>
    obtain ⟨k0, v0⟩ := p
    simp only [dictNodupKeys, List.map_cons, List.nodup_cons] at h
    by_cases hk : k0 = k
    · subst hk
      simpa [dictSet, dictNodupKeys] using h
    · have hrec := ih h.2
      simp only [dictNodupKeys] at hrec
      simp only [dictSet, if_neg hk, dictNodupKeys, List.map_cons, List.nodup_cons]
      refine ⟨?_, hrec⟩
      intro hmem
      rcases (mem_keys_dictSet rest k k0 v).mp hmem with hm | he
      · exact h.1 hm
      · exact hk he

theorem dictCountKey_eq_zero_of_not_mem {κ α : Type} [DecidableEq κ] (d : List (κ × α)) (k : κ)
    (h : k ∉ d.map Prod.fst) : dictCountKey d k = 0 := by
  induction d with
  | nil => rfl
  | cons p rest ih =>
    obtain ⟨k0, v0⟩ := p
    simp only [List.map_cons, List.mem_cons, not_or] at h
    have hne : ¬ (k0 = k) := fun he => h.1 he.symm
    have ih2 := ih h.2
    simp [dictCountKey, List.filter_cons, hne] at ih2 ⊢
    exact ih2

theorem dictCountKey_dictSet_self {κ α : Type} [DecidableEq κ] (d : List (κ × α)) (k : κ) (v : α)
    (h : dictNodupKeys d) : dictCountKey (dictSet d k v) k = 1 := by
  induction d with
  | nil => simp [dictSet, dictCountKey, List.filter_cons]
  | cons p rest ih =>
    obtain ⟨k0, v0⟩ := p
    simp only [dictNodupKeys, List.map_cons, List.nodup_cons] at h
    by_cases hk : k0 = k
    · subst hk
      have hz := dictCountKey_eq_zero_of_not_mem rest k0 h.1
      simp [dictSet, dictCountKey, List.filter_cons] at hz ⊢
      exact hz
    · have hrec := ih h.2
      simp [dictSet, dictCountKey, List.filter_cons, hk] at hrec ⊢
      exact hrec

/-! ### Route-sequence and decorator lemmas -/

theorem findRouteByHandler_append_of_none (f : Nat) (l l2 : List RouteRec)
    (h : findRouteByHandler f l = none) :
    findRouteByHandler f (l ++ l2) = findRouteByHandler f l2 := by
  induction l with
  | nil => simp
  | cons r rs ih =>
    simp only [findRouteByHandler] at h
    by_cases hr : r.handler = f
    · rw [if_pos hr] at h
      exact absurd h (by simp)
    · rw [if_neg hr] at h
      rw [List.cons_append]
      simp only [findRouteByHandler]
      rw [if_neg hr]
      exact ih h

theorem updateFirstRoute_append_of_none (f : Nat) (g : RouteRec → RouteRec) (l l2 : List RouteRec)
    (h : findRouteByHandler f l = none) :
    updateFirstRoute f g (l ++ l2) = l ++ updateFirstRoute f g l2 := by
  induction l with
  | nil => simp
  | cons r rs ih =>
    simp only [findRouteByHandler] at h
    by_cases hr : r.handler = f
    · rw [if_pos hr] at h
      exact absurd h (by simp)
    · rw [if_neg hr] at h
      rw [List.cons_append]
      simp only [updateFirstRoute]
      rw [if_neg hr, ih h]
      simp

theorem filter_handler_eq_nil_of_none (f : Nat) (l : List RouteRec)
    (h : findRouteByHandler f l = none) :
    l.filter (fun r => r.handler == f) = [] := by
  induction l with
  | nil => rfl
  | cons r rs ih =>
    simp only [findRouteByHandler] at h
    by_cases hr : r.handler = f
    · rw [if_pos hr] at h
      exact absurd h (by simp)
    · rw [if_neg hr] at h
      simp [List.filter_cons, hr, ih h]

theorem authDecor_reg_of_none (res : Option Val) (cog : Option Bool) (scp : Option (List String))
    (f : Nat) (s : PState) (h : findRouteByHandler f s.reg.routes = none) :
    (authDecor res cog scp f s).reg = s.reg := by
  simp [authDecor, h]

theorem authDecor_routes_of_some (res : Option Val) (cog : Option Bool)
    (scp : Option (List String)) (f : Nat) (s : PState) (r : RouteRec)
    (h : findRouteByHandler f s.reg.routes = some r) :
    (authDecor res cog scp f s).reg.routes
      = updateFirstRoute f (fun r2 => { r2 with auth := some ⟨res, cog, scp.getD []⟩ })
          s.reg.routes := by
  simp [authDecor, h]

theorem authDecor_meta (res : Option Val) (cog : Option Bool) (scp : Option (List String))
    (f : Nat) (s : PState) :
    (authDecor res cog scp f s).meta
      = fun g => if g = f
          then some { getOrCreateMetadata (s.meta f) with auth := some ⟨res, cog, scp.getD []⟩ }
          else s.meta g := by
  rcases h : findRouteByHandler f s.reg.routes with _ | r <;> simp [authDecor, h]

theorem routeDecor_reg_of_none (p : String) (m : Option String) (ms : Option (List String))
    (pub : Bool) (f : Nat) (s : PState) (h : findRouteByHandler f s.reg.routes = none) :
    (routeDecor p m ms pub f s).reg
      = { s.reg with routes := s.reg.routes
            ++ [⟨f, p, routeMethods m ms, pub, (getOrCreateMetadata (s.meta f)).auth⟩] } := by
  simp [routeDecor, h, Registry.register_route]

theorem routeDecor_routes_of_some (p : String) (m : Option String) (ms : Option (List String))
    (pub : Bool) (f : Nat) (s : PState) (r : RouteRec)
    (h : findRouteByHandler f s.reg.routes = some r) :
    (routeDecor p m ms pub f s).reg.routes
      = updateFirstRoute f
          (fun r2 => { r2 with path := p, methods := routeMethods m ms, public := pub })
          s.reg.routes := by
  simp [routeDecor, h]

theorem routeDecor_meta (p : String) (m : Option String) (ms : Option (List String))
    (pub : Bool) (f : Nat) (s : PState) :
    (routeDecor p m ms pub f s).meta
      = fun g => if g = f
          then some { getOrCreateMetadata (s.meta f) with
                        path := some p, methods := some (routeMethods m ms),
                        public := some pub }
          else s.meta g := by
  rcases h : findRouteByHandler f s.reg.routes with _ | r <;> simp [routeDecor, h]

/-! ### Claim theorems -/

/-- Claim C5: the Registry holds at most one Application; after one
declaration it holds exactly that Application, and after a second
declaration only the second — the first is replaced unconditionally and
no error is raised (declaration is a total function). -/
theorem app_last_write_wins (s : PState) (n1 st1 r1 : String) (k1 : List (String × Val))
    (n2 st2 r2 : String) (k2 : List (String × Val)) :
    (declareApp n1 st1 r1 k1 s).reg.app = some ⟨n1, st1, r1, k1⟩ ∧
    (declareApp n2 st2 r2 k2 (declareApp n1 st1 r1 k1 s)).reg.app = some ⟨n2, st2, r2, k2⟩ := by
  exact ⟨rfl, rfl⟩

/-- Claim C4, counterexample: constructing a `Table` whose `name` is the
empty string completes successfully and registers the record under the
empty-string key, refuting the claim that construction with an empty
name never completes and never registers under an empty key. -/
theorem empty_name_registration_counterexample :
    dictGet (declareResource
        (.table ⟨"", "id", none, true, true, none, [], []⟩) initState).reg.resources ""
      = some (.table ⟨"", "id", none, true, true, none, [], []⟩) := by
  decide

/-- Claim C4, amended: an absent name cannot occur (the name is a
required construction parameter, enforced before the body runs), but no
name validation is performed: construction with any name — the empty
string included — completes and registers the record under exactly that
name, and an Application with an empty name is registered as-is. -/
theorem name_registration_unvalidated (s : PState) (r : ResourceRec)
    (st rg : String) (kw : List (String × Val)) :
    dictGet (declareResource r s).reg.resources r.name = some r ∧
    (declareApp "" st rg kw s).reg.app = some ⟨"", st, rg, kw⟩ := by
  refine ⟨?_, rfl⟩
  exact dictGet_dictSet_self s.reg.resources r.name r

/-- Claim C6: for every nonempty sequence of resource declarations
sharing one name, the resource map afterwards holds exactly one entry
under that name, namely the most recently declared resource; the
earlier ones are silently overwritten. -/
theorem resource_name_last_write_wins (s : PState) (rs : List ResourceRec) (n : String)
    (hwf : dictNodupKeys s.reg.resources) (hne : rs ≠ [])
    (hn : ∀ r ∈ rs, ResourceRec.name r = n) :
    dictGet (rs.foldl (fun st r => declareResource r st) s).reg.resources n
      = some (rs.getLast hne) ∧
    dictCountKey (rs.foldl (fun st r => declareResource r st) s).reg.resources n = 1 := by
  induction rs generalizing s with
  | nil => exact absurd rfl hne
  | cons r rest ih =>
    rcases rest with _ | ⟨r2, rest2⟩
    · have hr : ResourceRec.name r = n := hn r (by simp)
      rw [List.foldl_cons, List.foldl_nil]
      constructor
      · rw [List.getLast_singleton]
        show dictGet (dictSet s.reg.resources r.name r) n = some r
        rw [← hr]
        exact dictGet_dictSet_self _ _ _
      · show dictCountKey (dictSet s.reg.resources r.name r) n = 1
        rw [← hr]
        exact dictCountKey_dictSet_self _ _ _ hwf
    · have ih2 := ih (declareResource r s)
        (dictNodupKeys_dictSet _ _ _ hwf) (by simp)
        (fun r3 h3 => hn r3 (List.mem_cons_of_mem _ h3))
      rw [List.foldl_cons, List.getLast_cons (by simp)]
      exact ih2

/-- Claim C10: `Table.put` with an item from which no partition-key value
can be extracted — a mapping without the partition-key field, a mapping
whose partition-key value is `None`, or an object without a matching
attribute — leaves the table (its item store included) completely
unchanged. -/
theorem table_put_missing_key_noop (t : TableRec) (fields fields2 attrs : List (String × Val))
    (h1 : dictGet fields t.partition_key = none)
    (h2 : dictGet fields2 t.partition_key = some .vnone)
    (h3 : dictGet attrs t.partition_key = none) :
    t.put (.vdict fields) = t ∧ t.put (.vdict fields2) = t ∧ t.put (.vobj attrs) = t := by
  refine ⟨?_, ?_, ?_⟩ <;> simp [TableRec.put, pyGetattr, h1, h2, h3]

/-- Claim C10, witness at a concrete table and concrete key-less items. -/
theorem table_put_missing_key_noop_witness :
    (dictGet [("name", Val.vstr "x")] (TableRec.mk "users" "user_id" none true true none [] []).partition_key = none ∧
      dictGet [("user_id", Val.vnone)] (TableRec.mk "users" "user_id" none true true none [] []).partition_key = some .vnone ∧
      dictGet [("other", Val.vstr "y")] (TableRec.mk "users" "user_id" none true true none [] []).partition_key = none) ∧
    ((TableRec.mk "users" "user_id" none true true none [] []).put
        (.vdict [("name", Val.vstr "x")]) = TableRec.mk "users" "user_id" none true true none [] [] ∧
      (TableRec.mk "users" "user_id" none true true none [] []).put
        (.vdict [("user_id", Val.vnone)]) = TableRec.mk "users" "user_id" none true true none [] [] ∧
      (TableRec.mk "users" "user_id" none true true none [] []).put
        (.vobj [("other", Val.vstr "y")]) = TableRec.mk "users" "user_id" none true true none [] []) := by
  constructor
  · exact ⟨by decide, by decide, by decide⟩
  · exact table_put_missing_key_noop (TableRec.mk "users" "user_id" none true true none [] [])
      [("name", Val.vstr "x")] [("user_id", Val.vnone)] [("other", Val.vstr "y")]
      (by decide) (by decide) (by decide)

/-- Helper: `Table.put` of a dict item whose partition-key field holds a
value other than `None` stores the item under that value. -/
theorem TableRec.put_vdict_of_some (t : TableRec) (fields : List (String × Val)) (v : Val)
    (hpk : dictGet fields t.partition_key = some v) (hv : v ≠ .vnone) :
    t.put (.vdict fields) = { t with data := dictSet t.data v (.vdict fields) } := by
  cases v <;> simp_all [TableRec.put]

/-- Claim C7: putting a keyed-mapping item and getting by its
partition-key value returns the item; updating that key with a mapping
merges the new fields in and retains every field not mentioned; after
deleting the key, `get` returns empty. -/
theorem table_put_get_update_delete_roundtrip (t : TableRec) (fields df : List (String × Val))
    (v : Val) (hpk : dictGet fields t.partition_key = some v) (hv : v ≠ .vnone)
    (hdf : dictNodupKeys df) :
    (t.put (.vdict fields)).get v = some (.vdict fields) ∧
    ((t.put (.vdict fields)).update v (.vdict df)).get v
      = some (.vdict (dictUpdate fields df)) ∧
    (∀ k v2, dictGet df k = some v2 → dictGet (dictUpdate fields df) k = some v2) ∧
    (∀ k, dictGet df k = none → dictGet (dictUpdate fields df) k = dictGet fields k) ∧
    ((t.put (.vdict fields)).delete v).get v = none := by
  have hput := TableRec.put_vdict_of_some t fields v hpk hv
  have hg : dictGet (dictSet t.data v (.vdict fields)) v = some (.vdict fields) :=
    dictGet_dictSet_self _ _ _
  refine ⟨?_, ?_, ?_, ?_, ?_⟩
  · rw [hput]
    show dictGet (dictSet t.data v (.vdict fields)) v = some (.vdict fields)
    exact hg
  · rw [hput]
    show TableRec.get (TableRec.update _ v (.vdict df)) v = _
    simp only [TableRec.update, hg]
    show dictGet (dictSet (dictSet t.data v (.vdict fields)) v
        (.vdict (dictUpdate fields df))) v = some (.vdict (dictUpdate fields df))
    exact dictGet_dictSet_self _ _ _
  · intro k v2 h
    exact dictGet_dictUpdate_of_some _ _ _ _ hdf h
  · intro k h
    exact dictGet_dictUpdate_of_none _ _ _ h
  · rw [hput]
    simp only [TableRec.delete, hg, Option.isSome_some, if_true]
    show dictGet (dictDel (dictSet t.data v (.vdict fields)) v) v = none
    exact dictGet_dictDel_self _ _

/-- Claim C7, witness: the spec's `users` table scenario. -/
theorem table_put_get_update_delete_roundtrip_witness :
    (dictGet [("user_id", Val.vstr "u1"), ("name", Val.vstr "Ann")]
        (TableRec.mk "users" "user_id" none true true none [] []).partition_key
      = some (.vstr "u1") ∧
      (Val.vstr "u1") ≠ .vnone ∧
      dictNodupKeys [("name", Val.vstr "Bob")]) ∧
    (((TableRec.mk "users" "user_id" none true true none [] []).put
          (.vdict [("user_id", Val.vstr "u1"), ("name", Val.vstr "Ann")])).get (.vstr "u1")
        = some (.vdict [("user_id", Val.vstr "u1"), ("name", Val.vstr "Ann")]) ∧
      (((TableRec.mk "users" "user_id" none true true none [] []).put
            (.vdict [("user_id", Val.vstr "u1"), ("name", Val.vstr "Ann")])).update
          (.vstr "u1") (.vdict [("name", Val.vstr "Bob")])).get (.vstr "u1")
        = some (.vdict (dictUpdate [("user_id", Val.vstr "u1"), ("name", Val.vstr "Ann")]
            [("name", Val.vstr "Bob")])) ∧
      (∀ k v2, dictGet [("name", Val.vstr "Bob")] k = some v2 →
        dictGet (dictUpdate [("user_id", Val.vstr "u1"), ("name", Val.vstr "Ann")]
          [("name", Val.vstr "Bob")]) k = some v2) ∧
      (∀ k, dictGet [("name", Val.vstr "Bob")] k = none →
        dictGet (dictUpdate [("user_id", Val.vstr "u1"), ("name", Val.vstr "Ann")]
            [("name", Val.vstr "Bob")]) k
          = dictGet [("user_id", Val.vstr "u1"), ("name", Val.vstr "Ann")] k) ∧
      (((TableRec.mk "users" "user_id" none true true none [] []).put
            (.vdict [("user_id", Val.vstr "u1"), ("name", Val.vstr "Ann")])).delete
          (.vstr "u1")).get (.vstr "u1")
        = none) := by
  constructor
  · exact ⟨by decide, by decide, by decide⟩
  · exact table_put_get_update_delete_roundtrip
      (TableRec.mk "users" "user_id" none true true none [] [])
      [("user_id", Val.vstr "u1"), ("name", Val.vstr "Ann")]
      [("name", Val.vstr "Bob")] (.vstr "u1") (by decide) (by decide) (by decide)

/-- Claim C8: starting from an empty log, `info` then `audit` leaves a
two-entry sequence whose severity levels are INFO then AUDIT in that
order, with each entry's message and extra labeled fields preserved as
given (the extra fields use labels other than the built-in `level` and
`message` keys the entries themselves carry). -/
theorem logstream_info_audit_append (l : LogStreamRec) (m1 m2 : String)
    (f1 f2 : List (String × Val)) (hl : l.logs = [])
    (h1 : dictNodupKeys f1) (h2 : dictNodupKeys f2)
    (hk1 : ∀ p ∈ f1, p.1 ≠ "level" ∧ p.1 ≠ "message")
    (hk2 : ∀ p ∈ f2, p.1 ≠ "level" ∧ p.1 ≠ "message") :
    ((l.info m1 f1).audit m2 f2).logs = [mkLogEntry "INFO" m1 f1, mkLogEntry "AUDIT" m2 f2] ∧
    dictGet (mkLogEntry "INFO" m1 f1) "level" = some (.vstr "INFO") ∧
    dictGet (mkLogEntry "AUDIT" m2 f2) "level" = some (.vstr "AUDIT") ∧
    dictGet (mkLogEntry "INFO" m1 f1) "message" = some (.vstr m1) ∧
    dictGet (mkLogEntry "AUDIT" m2 f2) "message" = some (.vstr m2) ∧
    (∀ k v, (k, v) ∈ f1 → dictGet (mkLogEntry "INFO" m1 f1) k = some v) ∧
    (∀ k v, (k, v) ∈ f2 → dictGet (mkLogEntry "AUDIT" m2 f2) k = some v) := by
  have hlev : ∀ (fs : List (String × Val)), (∀ p ∈ fs, p.1 ≠ "level" ∧ p.1 ≠ "message") →
      dictGet fs "level" = none ∧ dictGet fs "message" = none := by
    intro fs hks
    constructor <;>
      refine dictGet_eq_none_of_not_mem_keys _ _ ?_ <;>
      · intro hmem
        rcases List.mem_map.mp hmem with ⟨q, hq, hqe⟩
        first
        | exact (hks q hq).1 hqe
        | exact (hks q hq).2 hqe
  obtain ⟨hlev1, hmsg1⟩ := hlev f1 hk1
  obtain ⟨hlev2, hmsg2⟩ := hlev f2 hk2
  refine ⟨?_, ?_, ?_, ?_, ?_, ?_, ?_⟩
  · simp [LogStreamRec.info, LogStreamRec.audit, hl]
  · rw [mkLogEntry, dictGet_dictUpdate_of_none _ _ _ hlev1]
    rfl
  · rw [mkLogEntry, dictGet_dictUpdate_of_none _ _ _ hlev2]
    rfl
  · rw [mkLogEntry, dictGet_dictUpdate_of_none _ _ _ hmsg1]
    rfl
  · rw [mkLogEntry, dictGet_dictUpdate_of_none _ _ _ hmsg2]
    rfl
  · intro k v hm
    exact dictGet_dictUpdate_of_some _ _ _ _ h1 (dictGet_eq_of_mem _ _ _ h1 hm)
  · intro k v hm
    exact dictGet_dictUpdate_of_some _ _ _ _ h2 (dictGet_eq_of_mem _ _ _ h2 hm)

/-- Claim C8, witness: the test suite's `info`/`audit` scenario. -/
theorem logstream_info_audit_append_witness :
    ((LogStreamRec.mk "test-logs" "7d" true [] []).logs = [] ∧
      dictNodupKeys [("user", Val.vstr "admin")] ∧
      (∀ p ∈ [("user", Val.vstr "admin")], p.1 ≠ "level" ∧ p.1 ≠ "message")) ∧
    ((((LogStreamRec.mk "test-logs" "7d" true [] []).info "test message"
          [("user", Val.vstr "admin")]).audit "sensitive action" []).logs
        = [mkLogEntry "INFO" "test message" [("user", Val.vstr "admin")],
           mkLogEntry "AUDIT" "sensitive action" []] ∧
      dictGet (mkLogEntry "INFO" "test message" [("user", Val.vstr "admin")]) "level"
        = some (.vstr "INFO") ∧
      dictGet (mkLogEntry "AUDIT" "sensitive action" []) "level" = some (.vstr "AUDIT") ∧
      dictGet (mkLogEntry "INFO" "test message" [("user", Val.vstr "admin")]) "message"
        = some (.vstr "test message") ∧
      dictGet (mkLogEntry "AUDIT" "sensitive action" []) "message"
        = some (.vstr "sensitive action") ∧
      (∀ k v, (k, v) ∈ [("user", Val.vstr "admin")] →
        dictGet (mkLogEntry "INFO" "test message" [("user", Val.vstr "admin")]) k = some v) ∧
      (∀ k v, (k, v) ∈ ([] : List (String × Val)) →
        dictGet (mkLogEntry "AUDIT" "sensitive action" []) k = some v)) := by
  constructor
  · exact ⟨rfl, by decide, by decide⟩
  · exact logstream_info_audit_append (LogStreamRec.mk "test-logs" "7d" true [] [])
      "test message" "sensitive action" [("user", Val.vstr "admin")] []
      rfl (by decide) (by decide) (by decide) (by decide)

/-- Claim C9, counterexample: decorating with `method` given as the empty
string yields `["GET"]`, not the one-element collection containing the
given method — the truthiness test `if method:` treats an empty method
string as absent. -/
theorem empty_method_string_counterexample :
    (routeDecor "/x" (some "") none false 0 initState).reg.routes.map RouteRec.methods
      = [["GET"]] ∧ (["GET"] : List String) ≠ [""] := by
  exact ⟨by decide, by decide⟩

/-- Claim C9, amended: a given `methods` collection is used as-is; a
given non-empty singular `method` string yields the one-element
collection containing it; omitting both, or giving an empty `method`
string (which the truthiness test treats as omitted), defaults to
`["GET"]`; and the Route record created for a fresh callable carries
exactly this computed collection. -/
theorem route_methods_defaulting (s : PState) (f : Nat) (p : String)
    (mo : Option String) (mso : Option (List String)) (pub : Bool)
    (msGiven : List String) (mStr : String) (hm : mStr ≠ "")
    (h : findRouteByHandler f s.reg.routes = none) :
    routeMethods mo (some msGiven) = msGiven ∧
    routeMethods (some mStr) none = [mStr] ∧
    routeMethods none none = ["GET"] ∧
    routeMethods (some "") none = ["GET"] ∧
    (routeDecor p mo mso pub f s).reg.routes
      = s.reg.routes
        ++ [⟨f, p, routeMethods mo mso, pub, (getOrCreateMetadata (s.meta f)).auth⟩] := by
  refine ⟨rfl, by simp [routeMethods, hm], rfl, rfl, ?_⟩
  rw [routeDecor_reg_of_none p mo mso pub f s h]

/-- Claim C9, witness at concrete method arguments and a fresh callable. -/
theorem route_methods_defaulting_witness :
    (("PUT" : String) ≠ "" ∧ findRouteByHandler 0 initState.reg.routes = none) ∧
    (routeMethods (some "PUT") (some ["POST", "DELETE"]) = ["POST", "DELETE"] ∧
      routeMethods (some "PUT") none = ["PUT"] ∧
      routeMethods none none = ["GET"] ∧
      routeMethods (some "") none = ["GET"] ∧
      (routeDecor "/x" (some "PUT") (some ["POST", "DELETE"]) true 0 initState).reg.routes
        = initState.reg.routes
          ++ [⟨0, "/x", routeMethods (some "PUT") (some ["POST", "DELETE"]), true,
               (getOrCreateMetadata (initState.meta 0)).auth⟩]) := by
  constructor
  · exact ⟨by decide, rfl⟩
  · exact route_methods_defaulting initState 0 "/x" (some "PUT") (some ["POST", "DELETE"]) true
      ["POST", "DELETE"] "PUT" (by decide) rfl

/-- Claim C3, counterexample: after `auth` on a callable, a registry
reset, then `route` on the same callable, the single Route record
carries the pre-reset authorization descriptor — not an empty one — the
metadata stashed on the callable survives the reset. -/
theorem reset_auth_leak_counterexample :
    (resetState (authDecor none (some true) (some ["read"]) 0 initState)).reg
      = Registry.empty ∧
    (routeDecor "/data" none none false 0
        (resetState (authDecor none (some true) (some ["read"]) 0 initState))).reg.routes.map
        RouteRec.auth
      = [some ⟨none, some true, ["read"]⟩] ∧
    (some (⟨none, some true, ["read"]⟩ : AuthInfo) : Option AuthInfo) ≠ none := by
  exact ⟨by decide, by decide, by decide⟩

/-- Claim C3, amended: a reset clears the Registry completely —
Application, resources, routes and middlewares all become empty — but
the metadata attribute stored on a callable survives; a route
decoration after the reset on a callable that was auth-decorated before
it therefore produces a Route record carrying the pre-reset
authorization descriptor rather than an empty one. -/
theorem reset_clears_registry_but_metadata_survives (s : PState) (f : Nat)
    (res : Option Val) (cog : Option Bool) (scp : Option (List String))
    (p : String) (m : Option String) (ms : Option (List String)) (pub : Bool) :
    (resetState s).reg.app = none ∧
    (resetState s).reg.resources = [] ∧
    (resetState s).reg.routes = [] ∧
    (resetState s).reg.middlewares = [] ∧
    (routeDecor p m ms pub f (resetState (authDecor res cog scp f s))).reg.routes
      = [⟨f, p, routeMethods m ms, pub, some ⟨res, cog, scp.getD []⟩⟩] := by
  refine ⟨rfl, rfl, rfl, rfl, ?_⟩
  have hfind : findRouteByHandler f
      (resetState (authDecor res cog scp f s)).reg.routes = none := rfl
  rw [routeDecor_reg_of_none p m ms pub f (resetState (authDecor res cog scp f s)) hfind]
  have hmeta := authDecor_meta res cog scp f s
  show [] ++ [(⟨f, p, routeMethods m ms, pub,
      (getOrCreateMetadata ((authDecor res cog scp f s).meta f)).auth⟩ : RouteRec)] = _
  rw [hmeta]
  simp [getOrCreateMetadata]

/-- Claim C1: for a callable with no existing Route record, applying
`auth` then `route` and applying `route` then `auth` both leave the
route sequence extended by the same single Route record — identical
path, methods, public flag and authorization descriptor — and that
record is the only one for the callable. -/
theorem route_auth_order_independence (s : PState) (f : Nat) (p : String)
    (m : Option String) (ms : Option (List String)) (pub : Bool)
    (res : Option Val) (cog : Option Bool) (scp : Option (List String))
    (h : findRouteByHandler f s.reg.routes = none) :
    (routeDecor p m ms pub f (authDecor res cog scp f s)).reg.routes
      = s.reg.routes ++ [⟨f, p, routeMethods m ms, pub, some ⟨res, cog, scp.getD []⟩⟩] ∧
    (authDecor res cog scp f (routeDecor p m ms pub f s)).reg.routes
      = s.reg.routes ++ [⟨f, p, routeMethods m ms, pub, some ⟨res, cog, scp.getD []⟩⟩] ∧
    (s.reg.routes ++ [(⟨f, p, routeMethods m ms, pub,
          some ⟨res, cog, scp.getD []⟩⟩ : RouteRec)]).filter
        (fun r => r.handler == f)
      = [⟨f, p, routeMethods m ms, pub, some ⟨res, cog, scp.getD []⟩⟩] := by
  refine ⟨?_, ?_, ?_⟩
  · have hreg := authDecor_reg_of_none res cog scp f s h
    have hfind : findRouteByHandler f (authDecor res cog scp f s).reg.routes = none := by
      rw [hreg]
      exact h
    rw [routeDecor_reg_of_none p m ms pub f (authDecor res cog scp f s) hfind]
    have hmeta := authDecor_meta res cog scp f s
    show (authDecor res cog scp f s).reg.routes
        ++ [⟨f, p, routeMethods m ms, pub,
             (getOrCreateMetadata ((authDecor res cog scp f s).meta f)).auth⟩] = _
    rw [hreg, hmeta]
    simp [getOrCreateMetadata]
  · have hroutes1 : (routeDecor p m ms pub f s).reg.routes
        = s.reg.routes
          ++ [⟨f, p, routeMethods m ms, pub, (getOrCreateMetadata (s.meta f)).auth⟩] := by
      rw [routeDecor_reg_of_none p m ms pub f s h]
    have hfind2 : findRouteByHandler f (routeDecor p m ms pub f s).reg.routes
        = some ⟨f, p, routeMethods m ms, pub, (getOrCreateMetadata (s.meta f)).auth⟩ := by
      rw [hroutes1, findRouteByHandler_append_of_none f _ _ h]
      simp [findRouteByHandler]
    rw [authDecor_routes_of_some res cog scp f (routeDecor p m ms pub f s) _ hfind2,
        hroutes1, updateFirstRoute_append_of_none f _ _ _ h]
    simp [updateFirstRoute]
  · rw [List.filter_append, filter_handler_eq_nil_of_none f _ h]
    simp [List.filter_cons]

/-- Claim C1, witness: the test suite's `auth` + `route` scenario on a
fresh callable, checked in both orders. -/
theorem route_auth_order_independence_witness :
    findRouteByHandler 0 initState.reg.routes = none ∧
    ((routeDecor "/data" (some "GET") none false 0
        (authDecor none (some true) (some ["read"]) 0 initState)).reg.routes
      = initState.reg.routes
        ++ [⟨0, "/data", routeMethods (some "GET") none, false,
             some ⟨none, some true, (some ["read"]).getD []⟩⟩] ∧
    (authDecor none (some true) (some ["read"]) 0
        (routeDecor "/data" (some "GET") none false 0 initState)).reg.routes
      = initState.reg.routes
        ++ [⟨0, "/data", routeMethods (some "GET") none, false,
             some ⟨none, some true, (some ["read"]).getD []⟩⟩] ∧
    (initState.reg.routes
        ++ [(⟨0, "/data", routeMethods (some "GET") none, false,
             some ⟨none, some true, (some ["read"]).getD []⟩⟩ : RouteRec)]).filter
        (fun r => r.handler == 0)
      = [⟨0, "/data", routeMethods (some "GET") none, false,
          some ⟨none, some true, (some ["read"]).getD []⟩⟩]) := by
  constructor
  · rfl
  · exact route_auth_order_independence initState 0 "/data" (some "GET") none false
      none (some true) (some ["read"]) rfl

/-- Claim C2: applying `route` twice to a callable with no existing
Route record leaves exactly one Route record for it, carrying the
second decoration's path, methods and public flag. -/
theorem route_redeclaration_idempotent (s : PState) (f : Nat)
    (p1 p2 : String) (m1 m2 : Option String) (ms1 ms2 : Option (List String))
    (pub1 pub2 : Bool)
    (h : findRouteByHandler f s.reg.routes = none) :
    (routeDecor p2 m2 ms2 pub2 f (routeDecor p1 m1 ms1 pub1 f s)).reg.routes
      = s.reg.routes
        ++ [⟨f, p2, routeMethods m2 ms2, pub2, (getOrCreateMetadata (s.meta f)).auth⟩] ∧
    (s.reg.routes
        ++ [(⟨f, p2, routeMethods m2 ms2, pub2,
             (getOrCreateMetadata (s.meta f)).auth⟩ : RouteRec)]).filter
        (fun r => r.handler == f)
      = [⟨f, p2, routeMethods m2 ms2, pub2, (getOrCreateMetadata (s.meta f)).auth⟩] := by
  constructor
  · have hroutes1 : (routeDecor p1 m1 ms1 pub1 f s).reg.routes
        = s.reg.routes
          ++ [⟨f, p1, routeMethods m1 ms1, pub1, (getOrCreateMetadata (s.meta f)).auth⟩] := by
      rw [routeDecor_reg_of_none p1 m1 ms1 pub1 f s h]
    have hfind2 : findRouteByHandler f (routeDecor p1 m1 ms1 pub1 f s).reg.routes
        = some ⟨f, p1, routeMethods m1 ms1, pub1, (getOrCreateMetadata (s.meta f)).auth⟩ := by
      rw [hroutes1, findRouteByHandler_append_of_none f _ _ h]
      simp [findRouteByHandler]
    rw [routeDecor_routes_of_some p2 m2 ms2 pub2 f (routeDecor p1 m1 ms1 pub1 f s) _ hfind2,
        hroutes1, updateFirstRoute_append_of_none f _ _ _ h]
    simp [updateFirstRoute]
  · rw [List.filter_append, filter_handler_eq_nil_of_none f _ h]
    simp [List.filter_cons]

/-- Claim C2, witness: two `route` decorations on a fresh callable with
different attributes. -/
theorem route_redeclaration_idempotent_witness :
    findRouteByHandler 0 initState.reg.routes = none ∧
    ((routeDecor "/b" (some "POST") none true 0
        (routeDecor "/a" none none false 0 initState)).reg.routes
      = initState.reg.routes
        ++ [⟨0, "/b", routeMethods (some "POST") none, true,
             (getOrCreateMetadata (initState.meta 0)).auth⟩] ∧
    (initState.reg.routes
        ++ [(⟨0, "/b", routeMethods (some "POST") none, true,
             (getOrCreateMetadata (initState.meta 0)).auth⟩ : RouteRec)]).filter
        (fun r => r.handler == 0)
      = [⟨0, "/b", routeMethods (some "POST") none, true,
          (getOrCreateMetadata (initState.meta 0)).auth⟩]) := by
  constructor
  · rfl
  · exact route_redeclaration_idempotent initState 0 "/a" "/b" none (some "POST")
      none none false true rfl

/-- Claim C6, witness: two tables declared under the name `users`. -/
theorem resource_name_last_write_wins_witness :
    (dictNodupKeys initState.reg.resources ∧
      ([ResourceRec.table (TableRec.mk "users" "id" none true true none [] []),
        ResourceRec.table (TableRec.mk "users" "user_id" none true false none [] [])]
        : List ResourceRec) ≠ [] ∧
      (∀ r ∈ [ResourceRec.table (TableRec.mk "users" "id" none true true none [] []),
              ResourceRec.table (TableRec.mk "users" "user_id" none true false none [] [])],
        ResourceRec.name r = "users")) ∧
    (dictGet ([ResourceRec.table (TableRec.mk "users" "id" none true true none [] []),
          ResourceRec.table (TableRec.mk "users" "user_id" none true false none [] [])].foldl
          (fun st r => declareResource r st) initState).reg.resources "users"
        = some (ResourceRec.table (TableRec.mk "users" "user_id" none true false none [] [])) ∧
      dictCountKey ([ResourceRec.table (TableRec.mk "users" "id" none true true none [] []),
          ResourceRec.table (TableRec.mk "users" "user_id" none true false none [] [])].foldl
          (fun st r => declareResource r st) initState).reg.resources "users" = 1) := by
  constructor
  · exact ⟨by decide, by decide, by decide⟩
  · exact resource_name_last_write_wins initState
      [ResourceRec.table (TableRec.mk "users" "id" none true true none [] []),
       ResourceRec.table (TableRec.mk "users" "user_id" none true false none [] [])]
      "users" (by decide) (by decide) (by decide)
